import Mathlib

/-!
Verification of the multi-view triangulation and camera-model subsystem of
`wormlab3d`, together with the tumble-run approximation search.

The Python sources are shallowly embedded over `ℚ`:

* `PinholeCamera` and `PinholeCamera.project_to_2d` follow
  `wormlab3d/toolkit/pinhole_camera.py`.
* `triangulate` follows `wormlab3d/toolkit/triangulate.py`; the call to
  `scipy.optimize.minimize` is abstracted as a `Solver` parameter returning
  the converged point `res.x` and residual `res.fun`.
* `DynamicCameras.extract_coefficients` and the stages of
  `DynamicCameras.forward` follow `wormlab3d/midlines3d/dynamic_cameras.py`.
* `get_approximate` and `find_approximation` are modelled from the spec
  (their module `wormlab3d/particles/tumble_run.py` is not available, only
  its callers).
-/

/-- 3D points and vectors are rational triples indexed by `Fin 3`. -/
def Vec3 : Type := Fin 3 → ℚ

instance : DecidableEq Vec3 := by unfold Vec3; infer_instance

instance : Inhabited Vec3 := ⟨fun _ => 0⟩

/-- A pinhole camera, following `PinholeCamera.__init__`: a 4×4 homogeneous
pose, a 3×3 intrinsic matrix, optional 5-vector distortion coefficients
(ordered `k1, k2, p1, p2, k3` as unpacked in `project_to_2d`) and an
optional 2D pixel shift. -/
structure PinholeCamera where
  pose : Fin 4 → Fin 4 → ℚ
  matrix : Fin 3 → Fin 3 → ℚ
  distortion : Option (ℚ × ℚ × ℚ × ℚ × ℚ)
  shift : Option (ℚ × ℚ)

namespace PinholeCamera

/-- `self.rotation = pose[:3, :3]`. -/
def rotation (cam : PinholeCamera) (i j : Fin 3) : ℚ :=
  cam.pose (Fin.castLE (by omega) i) (Fin.castLE (by omega) j)

/-- `self.translation = pose[:3, 3]`. -/
def translation (cam : PinholeCamera) (i : Fin 3) : ℚ :=
  cam.pose (Fin.castLE (by omega) i) 3

/-- `fx = self.matrix[0, 0]`. -/
def fx (cam : PinholeCamera) : ℚ := cam.matrix 0 0

/-- `fy = self.matrix[1, 1]`. -/
def fy (cam : PinholeCamera) : ℚ := cam.matrix 1 1

/-- `cx = self.matrix[0, 2]`. -/
def cx (cam : PinholeCamera) : ℚ := cam.matrix 0 2

/-- `cy = self.matrix[1, 2]`. -/
def cy (cam : PinholeCamera) : ℚ := cam.matrix 1 2

/-- The camera-frame coordinates
`x = np.matmul(self.rotation, image_point) + self.translation`, the 3×3
matrix-vector product written out componentwise. -/
def cameraFrame (cam : PinholeCamera) (point : Vec3) : Fin 3 → ℚ :=
  fun i =>
    cam.rotation i 0 * point 0 + cam.rotation i 1 * point 1 +
      cam.rotation i 2 * point 2 + cam.translation i

/-- `PinholeCamera.project_to_2d`, embedded statement by statement:
rotate/translate, perspective-divide, optional shift, optional distortion
(in the nested Horner arrangement of the source), then intrinsics. -/
def project_to_2d (cam : PinholeCamera) (point : Vec3) (distort : Bool) : ℚ × ℚ :=
  let xc := cam.cameraFrame point
  let x0 : ℚ := xc 0 / xc 2
  let y0 : ℚ := xc 1 / xc 2
  let sh : ℚ × ℚ :=
    match cam.shift with
    | some s => (x0 + s.1 / cam.fx, y0 + s.2 / cam.fy)
    | none => (x0, y0)
  let dis : ℚ × ℚ :=
    if distort then
      match cam.distortion with
      | some (k1, k2, p1, p2, k3) =>
          let x := sh.1
          let y := sh.2
          let r2 := x * x + y * y
          (x * (1 + r2 * (k1 + r2 * (k2 + k3 * r2)) + 2 * p1 * y) + p2 * (r2 + 2 * x * x),
           y * (1 + r2 * (k1 + r2 * (k2 + k3 * r2)) + 2 * p2 * x) + p1 * (r2 + 2 * y * y))
      | none => sh
    else sh
  (cam.fx * dis.1 + cam.cx, cam.fy * dis.2 + cam.cy)

end PinholeCamera

/-- The projection pipeline exactly as the spec words it (for comparison
with `PinholeCamera.project_to_2d`): rotate and translate, perspective
divide, add `shift/f` when a shift is present, apply
`radial = 1 + k1·r2 + k2·r2² + k3·r2³` with the expanded radial-plus-
tangential formulas when distortion is requested and present, then
`(fx·x' + cx, fy·y' + cy)`. -/
def projectSpecPipeline (cam : PinholeCamera) (point : Vec3) (distort : Bool) : ℚ × ℚ :=
  let xc := cam.cameraFrame point
  let x0 : ℚ := xc 0 / xc 2
  let y0 : ℚ := xc 1 / xc 2
  let sh : ℚ × ℚ :=
    match cam.shift with
    | some s => (x0 + s.1 / cam.fx, y0 + s.2 / cam.fy)
    | none => (x0, y0)
  let dis : ℚ × ℚ :=
    if distort then
      match cam.distortion with
      | some (k1, k2, p1, p2, k3) =>
          let x := sh.1
          let y := sh.2
          let r2 := x * x + y * y
          let radial := 1 + k1 * r2 + k2 * r2 ^ 2 + k3 * r2 ^ 3
          (x * radial + 2 * p1 * x * y + p2 * (r2 + 2 * x ^ 2),
           y * radial + p1 * (r2 + 2 * y ^ 2) + 2 * p2 * x * y)
      | none => sh
    else sh
  (cam.fx * dis.1 + cam.cx, cam.fy * dis.2 + cam.cy)

/-- Claim C4: for every 3D point whose camera-frame Z coordinate is nonzero,
`project_to_2d` returns exactly the spec's pipeline (rotate/translate,
perspective divide, optional shift, optional expanded distortion formula,
intrinsics). -/
theorem project_to_2d_matches_spec (cam : PinholeCamera) (point : Vec3)
    (distort : Bool) (hz : cam.cameraFrame point 2 ≠ 0) :
    cam.project_to_2d point distort = projectSpecPipeline cam point distort := by
  unfold PinholeCamera.project_to_2d projectSpecPipeline
  cases hs : cam.shift <;> cases hd : cam.distortion <;> cases distort <;>
    simp only [hs, hd, Bool.false_eq_true, if_false, if_true] <;> try rfl
  all_goals
    rename_i d
    obtain ⟨k1, k2, p1, p2, k3⟩ := d
    simp only [Prod.mk.injEq]
    constructor <;> ring

/-- A concrete camera used to witness the projection claims. -/
def camWitness : PinholeCamera where
  pose := fun _ _ => 1
  matrix := fun _ _ => 2
  distortion := some (1, 2, 3, 4, 5)
  shift := some (7, 9)

/-- A concrete input point used to witness the projection claims. -/
def ptWitness : Vec3 := ![1, 2, 3]

/-- Witness for C4 at a concrete camera and point with nonzero camera-frame Z. -/
theorem project_to_2d_matches_spec_witness :
    camWitness.cameraFrame ptWitness 2 ≠ 0 ∧
      camWitness.project_to_2d ptWitness true = projectSpecPipeline camWitness ptWitness true := by
  have hz : camWitness.cameraFrame ptWitness 2 ≠ 0 := by
    simp [camWitness, ptWitness, PinholeCamera.cameraFrame, PinholeCamera.rotation,
      PinholeCamera.translation]
    norm_num
  exact ⟨hz, project_to_2d_matches_spec camWitness ptWitness true hz⟩

/-- A concrete camera with zero distortion coefficients. -/
def camZeroDist : PinholeCamera where
  pose := fun _ _ => 1
  matrix := fun _ _ => 2
  distortion := some (0, 0, 0, 0, 0)
  shift := some (3, 4)

/-- Claim C5: with all five distortion coefficients zero, projection with
distortion applied agrees with projection without distortion, for every
input point. -/
theorem project_to_2d_zero_distortion (cam : PinholeCamera) (point : Vec3)
    (h : cam.distortion = some (0, 0, 0, 0, 0)) :
    cam.project_to_2d point true = cam.project_to_2d point false := by
  unfold PinholeCamera.project_to_2d
  cases hs : cam.shift <;>
    simp only [hs, h, Bool.false_eq_true, if_false, if_true] <;>
    simp only [Prod.mk.injEq] <;> constructor <;> ring

/-- Witness for C5 at a concrete camera and point. -/
theorem project_to_2d_zero_distortion_witness :
    camZeroDist.project_to_2d ptWitness true = camZeroDist.project_to_2d ptWitness false :=
  project_to_2d_zero_distortion camZeroDist ptWitness rfl

/-! ## Triangulation (`wormlab3d/toolkit/triangulate.py`)

The call to `scipy.optimize.minimize(f, x0, args=(points_2d,), method='BFGS')`
is abstracted as a `Solver`: a function from the initial guess and the three
chosen 2D detections to the converged 3D point `res.x` and the residual
objective value `res.fun`. Everything around it — the Cartesian product of
candidate indices, the accumulation of `ObjectPoint`s, the running best
error, the threshold filter, the ascending stable sort and the final
re-projection — is embedded directly. -/

/-- Abstraction of one `scipy.optimize.minimize` call: initial guess and the
three selected 2D detections in, converged point `res.x` and residual
`res.fun` out. -/
def Solver : Type := Vec3 → (Fin 3 → ℚ × ℚ) → Vec3 × ℚ

/-- The fields of `ObjectPoint` that `triangulate` populates: the converged
3D point, the residual error, the per-view source-candidate indices, and
(after filtering) the reprojected 2D points, one per camera. -/
structure ObjectPoint where
  point_3d : Vec3
  error : ℚ
  source_point_idxs : ℕ × ℕ × ℕ
  reprojected_points_2d : List (ℚ × ℚ)
deriving DecidableEq

/-- `raise ValueError(f'Found zero 3D points below threshold, best: ...')`,
modelled as an exception value carrying the reported best error
(`np.inf` when no combination was attempted, hence `WithTop ℚ`). -/
structure NoSolutionError where
  best : WithTop ℚ
deriving DecidableEq

/-- One iteration body of the combination loop: select the 2D point of each
view named by the key triple and run the minimizer from the initial guess,
recording `res.x` as `point_3d`, `res.fun` as `error` and the key as
`source_point_idxs`. -/
def solveCombo (solver : Solver) (x0 : Vec3) (ips : Fin 3 → List (ℚ × ℚ))
    (key : ℕ × ℕ × ℕ) : ObjectPoint :=
  let pts : Fin 3 → ℚ × ℚ :=
    ![(ips 0).getD key.1 (0, 0), (ips 1).getD key.2.1 (0, 0), (ips 2).getD key.2.2 (0, 0)]
  let res := solver x0 pts
  { point_3d := res.1
    error := res.2
    source_point_idxs := key
    reprojected_points_2d := [] }

/-- `point_key_combinations = list(itertools.product(*point_keys))` where
`point_keys` are the index ranges of the three candidate lists. -/
def point_key_combinations (ips : Fin 3 → List (ℚ × ℚ)) : List (ℕ × ℕ × ℕ) :=
  (List.range (ips 0).length).flatMap fun i =>
    (List.range (ips 1).length).flatMap fun j =>
      (List.range (ips 2).length).map fun l => (i, j, l)

/-- The combination loop of `triangulate`: builds `res_3d` by appending one
`ObjectPoint` per key combination and folds the running
`best_err = min(best_err, obj_point.error)` starting from `np.inf`. -/
def triangulateCandidates (solver : Solver) (x0 : Vec3) (ips : Fin 3 → List (ℚ × ℚ)) :
    List ObjectPoint × WithTop ℚ :=
  (point_key_combinations ips).foldl
    (fun acc key =>
      let op := solveCombo solver x0 ips key
      (acc.1 ++ [op], min acc.2 (op.error : WithTop ℚ)))
    ([], ⊤)

/-- The re-projection step: attach `project_to_2d` of the solved 3D point
through each camera of the triplet. -/
def reprojectObj (cams : Fin 3 → PinholeCamera) (r : ObjectPoint) : ObjectPoint :=
  { r with
    reprojected_points_2d := (List.finRange 3).map fun c => (cams c).project_to_2d r.point_3d true }

/-- Stable insertion into an error-sorted list: the new element goes before
the first element whose error is not strictly smaller (matching Python's
stable ascending `list.sort(key=error)`). -/
def insertByError (a : ObjectPoint) : List ObjectPoint → List ObjectPoint
  | [] => [a]
  | b :: l => if b.error < a.error then b :: insertByError a l else a :: b :: l

/-- Stable ascending sort by `error`, as `res_3d.sort(key=lambda r: r.error)`. -/
def sortByError : List ObjectPoint → List ObjectPoint
  | [] => []
  | a :: l => insertByError a (sortByError l)

/-- `triangulate`, embedded: run the minimizer on every combination, filter
strictly below the matching threshold, sort ascending by error, raise
`NoSolutionError` with the best error when nothing survives, otherwise
re-project the survivors and return them. -/
def triangulate (cams : Fin 3 → PinholeCamera) (solver : Solver) (x0 : Vec3)
    (ips : Fin 3 → List (ℚ × ℚ)) (matching_threshold : ℚ) :
    Except NoSolutionError (List ObjectPoint) :=
  if (sortByError ((triangulateCandidates solver x0 ips).1.filter
      fun r => r.error < matching_threshold)).isEmpty
  then .error { best := (triangulateCandidates solver x0 ips).2 }
  else .ok ((sortByError ((triangulateCandidates solver x0 ips).1.filter
      fun r => r.error < matching_threshold)).map (reprojectObj cams))

/-- Inserting by error is a permutation of consing. -/
theorem perm_insertByError (a : ObjectPoint) (l : List ObjectPoint) :
    List.Perm (insertByError a l) (a :: l) := by
  induction l with
  | nil => simp [insertByError]
  | cons b t ih =>
      unfold insertByError
      by_cases h : b.error < a.error
      · simp only [h, if_true]
        exact ((ih.cons b).trans (List.Perm.swap a b t))
      · simp only [h, if_false]
        exact List.Perm.refl _

/-- Sorting by error permutes the input list. -/
theorem perm_sortByError (l : List ObjectPoint) :
    List.Perm (sortByError l) l := by
  induction l with
  | nil => simp [sortByError]
  | cons a t ih =>
      unfold sortByError
      exact (perm_insertByError a (sortByError t)).trans (ih.cons a)

/-- Inserting into an error-sorted list keeps it error-sorted. -/
theorem pairwise_insertByError (a : ObjectPoint) (l : List ObjectPoint)
    (h : l.Pairwise fun x y => x.error ≤ y.error) :
    (insertByError a l).Pairwise fun x y => x.error ≤ y.error := by
  induction l with
  | nil => simp [insertByError]
  | cons b t ih =>
      rw [List.pairwise_cons] at h
      unfold insertByError
      by_cases hba : b.error < a.error
      · simp only [hba, if_true]
        rw [List.pairwise_cons]
        refine ⟨?_, ih h.2⟩
        intro x hx
        rcases List.mem_cons.mp ((perm_insertByError a t).mem_iff.mp hx) with hxa | hxt
        · exact hxa ▸ le_of_lt hba
        · exact h.1 x hxt
      · simp only [hba, if_false]
        rw [List.pairwise_cons]
        refine ⟨?_, List.pairwise_cons.mpr h⟩
        intro x hx
        rcases List.mem_cons.mp hx with hxb | hxt
        · exact hxb ▸ le_of_not_lt hba
        · exact le_trans (le_of_not_lt hba) (h.1 x hxt)

/-- The sorted output is pairwise non-decreasing in error. -/
theorem pairwise_sortByError (l : List ObjectPoint) :
    (sortByError l).Pairwise fun x y => x.error ≤ y.error := by
  induction l with
  | nil => simp [sortByError]
  | cons a t ih => exact pairwise_insertByError a (sortByError t) ih

/-- The accumulator shape of the combination loop: appended candidates. -/
theorem foldl_candidates_fst (F : ℕ × ℕ × ℕ → ObjectPoint) (l : List (ℕ × ℕ × ℕ)) :
    ∀ acc : List ObjectPoint × WithTop ℚ,
      (l.foldl (fun acc key =>
          let op := F key
          (acc.1 ++ [op], min acc.2 ((op.error : WithTop ℚ)))) acc).1
        = acc.1 ++ l.map F := by
  induction l with
  | nil => intro acc; simp
  | cons k t ih => intro acc; rw [List.foldl_cons, ih]; simp

/-- The accumulator shape of the combination loop: running minimum error. -/
theorem foldl_candidates_snd (F : ℕ × ℕ × ℕ → ObjectPoint) (l : List (ℕ × ℕ × ℕ)) :
    ∀ acc : List ObjectPoint × WithTop ℚ,
      (l.foldl (fun acc key =>
          let op := F key
          (acc.1 ++ [op], min acc.2 ((op.error : WithTop ℚ)))) acc).2
        = (l.map fun k => ((F k).error : WithTop ℚ)).foldl min acc.2 := by
  induction l with
  | nil => intro acc; simp
  | cons k t ih => intro acc; rw [List.foldl_cons, ih]; simp

/-- Claim C1: the combination loop attempts one minimization per element of
the Cartesian product of the three candidate index ranges — each started
from the same initial guess `x0` — and produces exactly one `ObjectPoint`
per combination (carrying the converged point, the residual error and the
per-view source indices), so the pre-filter candidate list has length
`n0 * n1 * n2`. -/
theorem triangulate_combinatorial_completeness (solver : Solver) (x0 : Vec3)
    (ips : Fin 3 → List (ℚ × ℚ)) :
    (triangulateCandidates solver x0 ips).1
        = (point_key_combinations ips).map (solveCombo solver x0 ips)
      ∧ (triangulateCandidates solver x0 ips).1.length
        = (ips 0).length * ((ips 1).length * (ips 2).length) := by
  have hfst : (triangulateCandidates solver x0 ips).1
      = (point_key_combinations ips).map (solveCombo solver x0 ips) := by
    unfold triangulateCandidates
    rw [foldl_candidates_fst]
    simp
  refine ⟨hfst, ?_⟩
  rw [hfst, List.length_map]
  unfold point_key_combinations
  simp only [List.length_flatMap, Function.comp_def, List.length_map, List.map_const',
    List.sum_replicate, List.length_range, smul_eq_mul, List.map_map]

/-- Sorting preserves emptiness. -/
theorem sortByError_eq_nil_iff (l : List ObjectPoint) : sortByError l = [] ↔ l = [] := by
  constructor
  · intro h
    have hlen := (perm_sortByError l).length_eq
    rw [h] at hlen
    exact List.length_eq_zero.mp hlen.symm
  · intro h
    rw [h]
    rfl

/-- The running best error of the combination loop is the minimum of the
errors of all produced candidates (`⊤` plays `np.inf`). -/
theorem triangulateCandidates_best (solver : Solver) (x0 : Vec3)
    (ips : Fin 3 → List (ℚ × ℚ)) :
    (triangulateCandidates solver x0 ips).2
      = ((triangulateCandidates solver x0 ips).1.map fun r => (r.error : WithTop ℚ)).foldl min ⊤ := by
  have h1 := (triangulate_combinatorial_completeness solver x0 ips).1
  rw [h1, List.map_map]
  unfold triangulateCandidates
  rw [foldl_candidates_snd]
  rfl

/-- Claim C3: `triangulate` returns the `NoSolutionError` carrying the
minimum error over all attempted combinations exactly when zero candidates
survive the threshold filter, and it never returns an empty list. -/
theorem triangulate_no_solution_iff (cams : Fin 3 → PinholeCamera) (solver : Solver)
    (x0 : Vec3) (ips : Fin 3 → List (ℚ × ℚ)) (θ : ℚ) :
    (triangulate cams solver x0 ips θ
        = .error { best := ((triangulateCandidates solver x0 ips).1.map
            fun r => (r.error : WithTop ℚ)).foldl min ⊤ }
      ↔ (triangulateCandidates solver x0 ips).1.filter (fun r => r.error < θ) = [])
    ∧ triangulate cams solver x0 ips θ ≠ .ok [] := by
  by_cases hf : (triangulateCandidates solver x0 ips).1.filter (fun r => r.error < θ) = []
  · have hcond : (sortByError ((triangulateCandidates solver x0 ips).1.filter
        fun r => r.error < θ)).isEmpty = true := by
      rw [hf]
      rfl
    unfold triangulate
    rw [if_pos hcond, triangulateCandidates_best]
    refine ⟨⟨fun _ => hf, fun _ => rfl⟩, fun hcontra => Except.noConfusion hcontra⟩
  · have hs : sortByError ((triangulateCandidates solver x0 ips).1.filter
        fun r => r.error < θ) ≠ [] :=
      fun h => hf ((sortByError_eq_nil_iff _).mp h)
    have hcond : ¬ (sortByError ((triangulateCandidates solver x0 ips).1.filter
        fun r => r.error < θ)).isEmpty = true := by
      rw [List.isEmpty_iff]
      exact hs
    unfold triangulate
    rw [if_neg hcond]
    constructor
    · exact ⟨fun hcontra => Except.noConfusion hcontra, fun h => absurd h hf⟩
    · intro hcontra
      have hinj := Except.ok.inj hcontra
      have hmap := congrArg List.length hinj
      simp only [List.length_map, List.length_nil] at hmap
      exact hs (List.length_eq_zero.mp hmap)

/-- Claim C10: with any empty view, the Cartesian product of combinations is
empty, so zero candidates exist and the zero-candidates exception is raised
with reported best error infinity (`⊤`), not an empty result list. -/
theorem triangulate_empty_view_raises (cams : Fin 3 → PinholeCamera) (solver : Solver)
    (x0 : Vec3) (ips : Fin 3 → List (ℚ × ℚ)) (θ : ℚ)
    (h : ips 0 = [] ∨ ips 1 = [] ∨ ips 2 = []) :
    triangulate cams solver x0 ips θ = .error { best := (⊤ : WithTop ℚ) } := by
  have hcombo : point_key_combinations ips = [] := by
    unfold point_key_combinations
    rcases h with h | h | h <;> simp [h]
  have hcand : triangulateCandidates solver x0 ips = ([], ⊤) := by
    unfold triangulateCandidates
    rw [hcombo]
    rfl
  unfold triangulate
  rw [hcand]
  rfl

/-- Claim C2 (amended): `triangulate` keeps exactly the candidates whose
error is strictly below `matching_threshold` (so any candidate whose error
equals or exceeds the threshold is removed), sorts the survivors in
ascending order of error, and — when any survive — returns exactly their
re-projected versions; otherwise it raises. -/
theorem triangulate_filter_sort (cams : Fin 3 → PinholeCamera) (solver : Solver)
    (x0 : Vec3) (ips : Fin 3 → List (ℚ × ℚ)) (θ : ℚ) :
    List.Perm (sortByError ((triangulateCandidates solver x0 ips).1.filter fun r => r.error < θ))
        ((triangulateCandidates solver x0 ips).1.filter fun r => r.error < θ)
    ∧ (∀ r ∈ sortByError ((triangulateCandidates solver x0 ips).1.filter
          fun r => r.error < θ), r.error < θ)
    ∧ (sortByError ((triangulateCandidates solver x0 ips).1.filter
          fun r => r.error < θ)).Pairwise (fun a b => a.error ≤ b.error)
    ∧ (triangulate cams solver x0 ips θ
          = .error { best := (triangulateCandidates solver x0 ips).2 }
        ∨ triangulate cams solver x0 ips θ
          = .ok ((sortByError ((triangulateCandidates solver x0 ips).1.filter
              fun r => r.error < θ)).map (reprojectObj cams))) := by
  refine ⟨perm_sortByError _, ?_, pairwise_sortByError _, ?_⟩
  · intro r hr
    have hmem := (perm_sortByError _).mem_iff.mp hr
    exact of_decide_eq_true (List.mem_filter.mp hmem).2
  · unfold triangulate
    by_cases hcond : (sortByError ((triangulateCandidates solver x0 ips).1.filter
        fun r => r.error < θ)).isEmpty = true
    · rw [if_pos hcond]
      exact Or.inl rfl
    · rw [if_neg hcond]
      exact Or.inr rfl

/-- A camera triplet for the triangulation witnesses. -/
def camsTri : Fin 3 → PinholeCamera := fun _ => camWitness

/-- A solver abstraction that always reports residual error `5`. -/
def solverErr5 : Solver := fun x _ => (x, 5)

/-- The default initial guess `x0 = (1., 1., 500.)` of `triangulate`. -/
def x0Default : Vec3 := ![1, 1, 500]

/-- One candidate 2D point per view. -/
def ipsSingle : Fin 3 → List (ℚ × ℚ) := fun _ => [(0, 0)]

/-- A detection set whose first view is empty. -/
def ipsEmptyView : Fin 3 → List (ℚ × ℚ) := ![[], [(1, 2)], [(3, 4)]]

/-- Counterexample to claim C2 as stated: with one candidate per view and a
solved error exactly equal to the matching threshold `5`, the candidate's
error does not exceed the threshold, yet `triangulate` does not return it —
the filter keeps only errors strictly below the threshold, so the candidate
is dropped and the zero-candidates exception is raised instead. -/
theorem triangulate_threshold_boundary_cex :
    (triangulateCandidates solverErr5 x0Default ipsSingle).1.map ObjectPoint.error = [5]
    ∧ ¬ ((5 : ℚ) > 5)
    ∧ triangulate camsTri solverErr5 x0Default ipsSingle 5
        = .error { best := ((5 : ℚ) : WithTop ℚ) } := by
  refine ⟨rfl, by norm_num, ?_⟩
  have hfil : (triangulateCandidates solverErr5 x0Default ipsSingle).1.filter
      (fun r => r.error < (5 : ℚ)) = [] := by
    have h5 : decide ((5 : ℚ) < 5) = false := by norm_num
    show List.filter _ _ = _
    rw [show (triangulateCandidates solverErr5 x0Default ipsSingle).1
        = [solveCombo solverErr5 x0Default ipsSingle (0, 0, 0)] from rfl]
    simp [solveCombo, solverErr5, List.filter]
  have hcond : (sortByError ((triangulateCandidates solverErr5 x0Default ipsSingle).1.filter
      fun r => r.error < (5 : ℚ))).isEmpty = true := by
    rw [hfil]
    rfl
  unfold triangulate
  rw [if_pos hcond]
  rfl

/-- Witness instantiating the amended C2 theorem at a concrete call. -/
theorem triangulate_filter_sort_witness :
    List.Perm (sortByError ((triangulateCandidates solverErr5 x0Default ipsSingle).1.filter
          fun r => r.error < 7))
        ((triangulateCandidates solverErr5 x0Default ipsSingle).1.filter fun r => r.error < 7)
    ∧ (∀ r ∈ sortByError ((triangulateCandidates solverErr5 x0Default ipsSingle).1.filter
          fun r => r.error < 7), r.error < 7)
    ∧ (sortByError ((triangulateCandidates solverErr5 x0Default ipsSingle).1.filter
          fun r => r.error < 7)).Pairwise (fun a b => a.error ≤ b.error)
    ∧ (triangulate camsTri solverErr5 x0Default ipsSingle 7
          = .error { best := (triangulateCandidates solverErr5 x0Default ipsSingle).2 }
        ∨ triangulate camsTri solverErr5 x0Default ipsSingle 7
          = .ok ((sortByError ((triangulateCandidates solverErr5 x0Default ipsSingle).1.filter
              fun r => r.error < 7)).map (reprojectObj camsTri))) :=
  triangulate_filter_sort camsTri solverErr5 x0Default ipsSingle 7

/-- Witness instantiating C3 concretely: at threshold `5` the sole candidate
(error `5`) is filtered out, so the error branch is taken carrying the
minimum candidate error; at threshold `7` the result cannot be `ok []`. -/
theorem triangulate_no_solution_iff_witness :
    triangulate camsTri solverErr5 x0Default ipsSingle 5
        = .error { best := ((triangulateCandidates solverErr5 x0Default ipsSingle).1.map
            fun r => (r.error : WithTop ℚ)).foldl min ⊤ }
    ∧ triangulate camsTri solverErr5 x0Default ipsSingle 7 ≠ .ok [] := by
  constructor
  · apply (triangulate_no_solution_iff camsTri solverErr5 x0Default ipsSingle 5).1.mpr
    have h5 : decide ((5 : ℚ) < 5) = false := by norm_num
    rw [show (triangulateCandidates solverErr5 x0Default ipsSingle).1
        = [solveCombo solverErr5 x0Default ipsSingle (0, 0, 0)] from rfl]
    simp [solveCombo, solverErr5, List.filter]
  · exact (triangulate_no_solution_iff camsTri solverErr5 x0Default ipsSingle 7).2

/-- Witness instantiating C10 at a concrete call with an empty first view. -/
theorem triangulate_empty_view_raises_witness :
    triangulate camsTri solverErr5 x0Default ipsEmptyView 9
      = .error { best := (⊤ : WithTop ℚ) } :=
  triangulate_empty_view_raises camsTri solverErr5 x0Default ipsEmptyView 9 (Or.inl rfl)

/-! ## Dynamic cameras (`wormlab3d/midlines3d/dynamic_cameras.py`)

A rank-3 tensor of per-camera coefficient packs is modelled by its three
dimensions and a total data function (`forward` asserts the tensor is
rank 3, so only rank-3 tensors are representable here). The stages of
`DynamicCameras.forward` are embedded per batch item `b`, camera `cIdx`
and point `p`. -/

/-- `N_CAM_COEFFICIENTS = 22`. -/
def N_CAM_COEFFICIENTS : ℕ := 22

/-- A rank-3 tensor of rationals: three dimensions plus the entries. -/
structure Tensor3 where
  dim0 : ℕ
  dim1 : ℕ
  dim2 : ℕ
  data : ℕ → ℕ → ℕ → ℚ

/-- A failed shape assertion in `extract_coefficients`. -/
inductive ShapeError
  | assertionFailed
deriving DecidableEq

/-- The buffers filled by `DynamicCameras.extract_coefficients`. -/
structure DynExtracted where
  fx : ℕ → Fin 3 → ℚ
  fy : ℕ → Fin 3 → ℚ
  cx : ℕ → Fin 3 → ℚ
  cy : ℕ → Fin 3 → ℚ
  rotation : ℕ → Fin 3 → Fin 3 → Fin 3 → ℚ
  translation : ℕ → Fin 3 → Fin 3 → ℚ
  distortion : ℕ → Fin 3 → Fin 5 → ℚ
  shifts : ℕ → Fin 3 → ℚ

/-- `DynamicCameras.extract_coefficients`: asserts the camera dimension is 3
and the coefficient dimension is 22, then unpacks `fx, fy, cx, cy` (columns
0–3), the flattened rotation (columns 4–12, reshaped row-major), the
translation (13–15), the distortion (16–20) and the shift scalar (21). -/
def extract_coefficients (c : Tensor3) : Except ShapeError DynExtracted :=
  if c.dim1 = 3 ∧ c.dim2 = N_CAM_COEFFICIENTS then
    .ok
      { fx := fun b cam => c.data b cam.val 0
        fy := fun b cam => c.data b cam.val 1
        cx := fun b cam => c.data b cam.val 2
        cy := fun b cam => c.data b cam.val 3
        rotation := fun b cam i j => c.data b cam.val (4 + 3 * i.val + j.val)
        translation := fun b cam i => c.data b cam.val (13 + i.val)
        distortion := fun b cam i => c.data b cam.val (16 + i.val)
        shifts := fun b cam => c.data b cam.val 21 }
  else .error .assertionFailed

/-- `xyz = torch.einsum('bcij,bpj->bcpi', rotation, points) + translation`,
written out for the three summands. -/
def dynXYZ (E : DynExtracted) (points : ℕ → ℕ → Fin 3 → ℚ)
    (b : ℕ) (cIdx : Fin 3) (p : ℕ) (i : Fin 3) : ℚ :=
  E.rotation b cIdx i 0 * points b p 0 + E.rotation b cIdx i 1 * points b p 1 +
    E.rotation b cIdx i 2 * points b p 2 + E.translation b cIdx i

/-- The perspective divide `x = xyz[...,0]/xyz[...,2]`, `y = xyz[...,1]/xyz[...,2]`. -/
def dynPersp (E : DynExtracted) (points : ℕ → ℕ → Fin 3 → ℚ)
    (b : ℕ) (cIdx : Fin 3) (p : ℕ) : ℚ × ℚ :=
  (dynXYZ E points b cIdx p 0 / dynXYZ E points b cIdx p 2,
   dynXYZ E points b cIdx p 1 / dynXYZ E points b cIdx p 2)

/-- The shift tensor rows: `shifts[:,0,0] = s0`, `shifts[:,1,1] = -s1`,
`shifts[:,2,1] = s2`, all other entries zero. -/
def dynShiftVec (E : DynExtracted) (b : ℕ) (cIdx : Fin 3) : ℚ × ℚ :=
  if cIdx = 0 then (E.shifts b 0, 0)
  else if cIdx = 1 then (0, -(E.shifts b 1))
  else (0, E.shifts b 2)

/-- `x = x + shifts[:,:,0]/fx`, `y = y + shifts[:,:,1]/fy`. -/
def dynShifted (E : DynExtracted) (points : ℕ → ℕ → Fin 3 → ℚ)
    (b : ℕ) (cIdx : Fin 3) (p : ℕ) : ℚ × ℚ :=
  ((dynPersp E points b cIdx p).1 + (dynShiftVec E b cIdx).1 / E.fx b cIdx,
   (dynPersp E points b cIdx p).2 + (dynShiftVec E b cIdx).2 / E.fy b cIdx)

/-- The distortion block of `forward`:
`k_term = 1 + k1*r2 + k2*r4 + k3*r6` with the tangential terms. -/
def dynDistorted (E : DynExtracted) (points : ℕ → ℕ → Fin 3 → ℚ)
    (b : ℕ) (cIdx : Fin 3) (p : ℕ) : ℚ × ℚ :=
  let x := (dynShifted E points b cIdx p).1
  let y := (dynShifted E points b cIdx p).2
  let k1 := E.distortion b cIdx 0
  let k2 := E.distortion b cIdx 1
  let p1 := E.distortion b cIdx 2
  let p2 := E.distortion b cIdx 3
  let k3 := E.distortion b cIdx 4
  let xy := x * y
  let r2 := x ^ 2 + y ^ 2
  let r4 := r2 * r2
  let r6 := r4 * r2
  let k_term := 1 + k1 * r2 + k2 * r4 + k3 * r6
  (x * k_term + 2 * p1 * xy + p2 * (r2 + 2 * x ^ 2),
   y * k_term + p1 * (r2 + 2 * y ^ 2) + 2 * p2 * xy)

/-- `DynamicCameras.forward`: extract the coefficients (propagating the
shape assertions), then per batch item, camera and point, rotate/translate,
perspective-divide, shift, optionally distort, and map to pixels
`(fx*x + cx, fy*y + cy)`. -/
def DynamicCameras.forward (distort : Bool) (c : Tensor3)
    (points : ℕ → ℕ → Fin 3 → ℚ) : Except ShapeError (ℕ → Fin 3 → ℕ → ℚ × ℚ) :=
  match extract_coefficients c with
  | .error e => .error e
  | .ok E => .ok fun b cIdx p =>
      let xy := if distort then dynDistorted E points b cIdx p else dynShifted E points b cIdx p
      (E.fx b cIdx * xy.1 + E.cx b cIdx, E.fy b cIdx * xy.2 + E.cy b cIdx)

/-- Claim C6: in `DynamicCameras.forward`, the shift contribution to camera
index 1 is minus its shift coefficient over the focal length (on the y
axis), while cameras 0 and 2 receive plus their shift coefficient over the
focal length (on the x and y axes respectively); the other coordinate of
each camera is left unchanged by the shift step. -/
theorem dynamic_cameras_shift_sign (E : DynExtracted) (points : ℕ → ℕ → Fin 3 → ℚ)
    (b p : ℕ) :
    dynShifted E points b 1 p
        = ((dynPersp E points b 1 p).1,
           (dynPersp E points b 1 p).2 - E.shifts b 1 / E.fy b 1)
    ∧ dynShifted E points b 0 p
        = ((dynPersp E points b 0 p).1 + E.shifts b 0 / E.fx b 0,
           (dynPersp E points b 0 p).2)
    ∧ dynShifted E points b 2 p
        = ((dynPersp E points b 2 p).1,
           (dynPersp E points b 2 p).2 + E.shifts b 2 / E.fy b 2) := by
  refine ⟨?_, ?_, ?_⟩ <;>
    simp [dynShifted, dynShiftVec, zero_div, neg_div, sub_eq_add_neg,
      Prod.ext_iff, Fin.ext_iff]

/-- Claim C7: `extract_coefficients` fails with a `ShapeError` exactly when
the camera dimension is not 3 or the coefficient dimension is not 22, and
on a `B×3×22` tensor it succeeds, unpacking `fx, fy, cx, cy`, the reshaped
rotation, the translation, the distortion and the shift from their column
slices. -/
theorem extract_coefficients_shape (c : Tensor3) :
    ((∃ e, extract_coefficients c = .error e) ↔ (c.dim1 ≠ 3 ∨ c.dim2 ≠ 22))
    ∧ (c.dim1 = 3 → c.dim2 = 22 →
        extract_coefficients c = .ok
          { fx := fun b cam => c.data b cam.val 0
            fy := fun b cam => c.data b cam.val 1
            cx := fun b cam => c.data b cam.val 2
            cy := fun b cam => c.data b cam.val 3
            rotation := fun b cam i j => c.data b cam.val (4 + 3 * i.val + j.val)
            translation := fun b cam i => c.data b cam.val (13 + i.val)
            distortion := fun b cam i => c.data b cam.val (16 + i.val)
            shifts := fun b cam => c.data b cam.val 21 }) := by
  by_cases h : c.dim1 = 3 ∧ c.dim2 = N_CAM_COEFFICIENTS
  · constructor
    · unfold extract_coefficients
      rw [if_pos h]
      simp [h.1, h.2, N_CAM_COEFFICIENTS]
    · intro h1 h2
      unfold extract_coefficients
      rw [if_pos h]
  · constructor
    · unfold extract_coefficients
      rw [if_neg h]
      constructor
      · intro hdims
        by_contra hcontra
        push_neg at hcontra
        exact h ⟨hcontra.1, hcontra.2⟩
      · intro hdims
        exact ⟨.assertionFailed, rfl⟩
    · intro h1 h2
      exact absurd ⟨h1, h2⟩ h

/-- A concrete `1×3×22` coefficient tensor. -/
def coeffTensorW : Tensor3 where
  dim0 := 1
  dim1 := 3
  dim2 := 22
  data := fun b cam k => (b : ℚ) + 2 * (cam : ℚ) + 3 * (k : ℚ)

/-- Witness instantiating C7: the concrete `1×3×22` tensor unpacks
successfully into its column slices. -/
theorem extract_coefficients_shape_witness :
    extract_coefficients coeffTensorW = .ok
      { fx := fun b cam => coeffTensorW.data b cam.val 0
        fy := fun b cam => coeffTensorW.data b cam.val 1
        cx := fun b cam => coeffTensorW.data b cam.val 2
        cy := fun b cam => coeffTensorW.data b cam.val 3
        rotation := fun b cam i j => coeffTensorW.data b cam.val (4 + 3 * i.val + j.val)
        translation := fun b cam i => coeffTensorW.data b cam.val (13 + i.val)
        distortion := fun b cam i => coeffTensorW.data b cam.val (16 + i.val)
        shifts := fun b cam => coeffTensorW.data b cam.val 21 } :=
  (extract_coefficients_shape coeffTensorW).2 rfl rfl

/-! ## Tumble-run approximation (modelled from the spec)

`get_approximate` and `find_approximation` live in
`wormlab3d/particles/tumble_run.py`, which is not among the available
sources (only their callers in `scripts/particles/tumble_run.py` are), so
the definitions below are modelled from the spec's §4.4: peak finding with
minimum spacing, vertices bracketed by the trajectory endpoints,
piecewise-linear reconstruction, mean-squared error, and a bisection-like
error-limit search that soft-fails on budget exhaustion. The angle
decomposition and run speeds are omitted: no claim concerns them, and they
require transcendental functions. -/

/-- Generic stable insertion keyed by a rational measure. -/
def insertKeyed {α : Type} (key : α → ℚ) (a : α) : List α → List α
  | [] => [a]
  | b :: l => if key b < key a then b :: insertKeyed key a l else a :: b :: l

/-- Generic stable ascending insertion sort keyed by a rational measure. -/
def sortKeyed {α : Type} (key : α → ℚ) : List α → List α
  | [] => []
  | a :: l => insertKeyed key a (sortKeyed key l)

/-- Modelled from the spec: sliding-window average smoothing of a scalar
signal (window clipped at the boundaries). -/
def smoothAvg (w : ℕ) (l : List ℚ) : List ℚ :=
  (List.range l.length).map fun i =>
    let lo := i - w / 2
    let hi := min (i + w / 2) (l.length - 1)
    let idxs := (List.range (hi + 1 - lo)).map fun t => lo + t
    (idxs.map fun j => l.getD j 0).sum / (idxs.length : ℚ)

/-- Modelled from the spec: componentwise sliding-window average smoothing
of the heading signal. -/
def smoothVecs (w : ℕ) (l : List Vec3) : List Vec3 :=
  (List.range l.length).map fun i => fun m =>
    let lo := i - w / 2
    let hi := min (i + w / 2) (l.length - 1)
    let idxs := (List.range (hi + 1 - lo)).map fun t => lo + t
    (idxs.map fun j => l.getD j default m).sum / (idxs.length : ℚ)

/-- Modelled from the spec: curvature as finite differences of consecutive
headings' angular change. The angular-change measure between two
consecutive headings is transcendental (an arc length), so it is taken as
the parameter `ang`. -/
def calculate_curvature (ang : Vec3 → Vec3 → ℚ) (e0 : List Vec3) : List ℚ :=
  List.zipWith ang e0 e0.tail

/-- Modelled from the spec: candidate tumbles are the interior local peaks
of the curvature signal. -/
def localPeakIdxs (k : List ℚ) : List ℕ :=
  (List.range k.length).filter fun i =>
    decide (0 < i) && decide (i + 1 < k.length) &&
      decide (k.getD (i - 1) 0 < k.getD i 0) && decide (k.getD (i + 1) 0 < k.getD i 0)

/-- Modelled from the spec: greedily accept a candidate peak only if it is
at least `distance` steps away from every previously accepted peak. -/
def greedyAccept (distance : ℕ) : List ℕ → List ℕ → List ℕ
  | acc, [] => acc
  | acc, i :: rest =>
      if acc.all fun j => decide (distance ≤ max i j - min i j) then
        greedyAccept distance (acc ++ [i]) rest
      else greedyAccept distance acc rest

/-- Linear interpolation between the trajectory points at vertex indices
`a` and `b`, evaluated at timestep `t`. -/
def lerpSeg (X : List Vec3) (a b t : ℕ) : Vec3 :=
  fun m =>
    X.getD a default m +
      (((t : ℚ) - (a : ℚ)) / ((b : ℚ) - (a : ℚ))) * (X.getD b default m - X.getD a default m)

/-- The piecewise-linear reconstruction at timestep `t`, walking the sorted
vertex-index chain. -/
def interpPoint (X : List Vec3) : List ℕ → ℕ → Vec3
  | [], _ => default
  | a :: rest, t =>
      match rest with
      | [] => X.getD a default
      | b :: _ => if t < b then lerpSeg X a b t else interpPoint X rest t

/-- The step differences of consecutive vertex indices (run durations). -/
def idxDiffs : List ℕ → List ℤ
  | [] => []
  | a :: rest =>
      match rest with
      | [] => []
      | b :: _ => ((b : ℤ) - (a : ℤ)) :: idxDiffs rest

/-- Modelled from the spec: the output of `get_approximate` — the
piecewise-linear reconstruction, the vertices, the tumble indices and the
run durations (angles and speeds omitted, see the section comment). -/
structure Approximation where
  X_approx : List Vec3
  vertices : List Vec3
  tumble_idxs : List ℕ
  run_durations : List ℤ
deriving DecidableEq

/-- Modelled from the spec: `get_approximate(X, k, distance)` — local peaks
of `k` sorted by height (descending) are greedily accepted with minimum
spacing `distance`; the accepted indices, sorted ascending, become tumble
indices; the vertex chain brackets them with the first and last trajectory
indices; runs are the consecutive differences; `X_approx` linearly
interpolates between vertices at the original resolution. -/
def get_approximate (X : List Vec3) (k : List ℚ) (distance : ℕ) : Approximation :=
  { X_approx := (List.range X.length).map fun t =>
      interpPoint X
        (0 :: sortKeyed (fun i : ℕ => (i : ℚ))
            (greedyAccept distance [] (sortKeyed (fun i => -(k.getD i 0)) (localPeakIdxs k)))
          ++ [X.length - 1]) t
    vertices := (0 :: sortKeyed (fun i : ℕ => (i : ℚ))
          (greedyAccept distance [] (sortKeyed (fun i => -(k.getD i 0)) (localPeakIdxs k)))
        ++ [X.length - 1]).map fun i => X.getD i default
    tumble_idxs := sortKeyed (fun i : ℕ => (i : ℚ))
      (greedyAccept distance [] (sortKeyed (fun i => -(k.getD i 0)) (localPeakIdxs k)))
    run_durations := idxDiffs
      (0 :: sortKeyed (fun i : ℕ => (i : ℚ))
          (greedyAccept distance [] (sortKeyed (fun i => -(k.getD i 0)) (localPeakIdxs k)))
        ++ [X.length - 1]) }

/-- `mean(sum((X - X_approx)**2, axis=-1))`. -/
def mse (X Xa : List Vec3) : ℚ :=
  ((List.zip X Xa).map fun pq =>
    (pq.1 0 - pq.2 0) ^ 2 + (pq.1 1 - pq.2 1) ^ 2 + (pq.1 2 - pq.2 2) ^ 2).sum
    / (X.length : ℚ)

/-- Modelled from the spec: a `PreconditionError` raised on malformed
approximation inputs. -/
inductive PreconditionError
  | mk
deriving DecidableEq

/-- One search candidate: the approximation at distance `d`, the distance,
and the resulting mean-squared reconstruction error. -/
def trialApprox (X : List Vec3) (k : List ℚ) (d : ℕ) : Approximation × ℕ × ℚ :=
  (get_approximate X k d, d, mse X (get_approximate X k d).X_approx)

/-- Modelled from the spec: the bisection-like error-limit search. Each
iteration evaluates the current distance; if the error is within the
limit it stops, otherwise it halves the distance (floored at 1), tracks
the best (lowest-error) candidate seen, and on budget exhaustion returns
that best candidate rather than raising. -/
def searchLoop (X : List Vec3) (k : List ℚ) (error_limit : ℚ) :
    ℕ → ℕ → Approximation × ℕ × ℚ → Approximation × ℕ × ℚ
  | 0, _, best => best
  | fuel + 1, d, best =>
      if (trialApprox X k d).2.2 ≤ error_limit then trialApprox X k d
      else
        searchLoop X k error_limit fuel (max 1 (d / 2))
          (if (trialApprox X k d).2.2 < best.2.2 then trialApprox X k d else best)

/-- Modelled from the spec: `find_approximation` — fail fast with a
`PreconditionError` on mismatched `X`/`e0` lengths, non-positive first
distance or non-positive error limit; otherwise smooth the heading, derive
and smooth the curvature, and run the error-limit search, returning the
found approximation with the resolved parameters (the spec's resolved
`height` is omitted: no claim concerns it). -/
def find_approximation (ang : Vec3 → Vec3 → ℚ) (X e0_raw : List Vec3)
    (error_limit : ℚ) (max_iterations distance_first smooth_e0_first smooth_K_first : ℕ) :
    Except PreconditionError (Approximation × ℕ × ℕ × ℕ) :=
  if X.length ≠ e0_raw.length ∨ distance_first = 0 ∨ error_limit ≤ 0 then .error .mk
  else
    .ok
      ((searchLoop X
          (smoothAvg smooth_K_first (calculate_curvature ang (smoothVecs smooth_e0_first e0_raw)))
          error_limit max_iterations distance_first
          (trialApprox X
            (smoothAvg smooth_K_first (calculate_curvature ang (smoothVecs smooth_e0_first e0_raw)))
            distance_first)).1,
        (searchLoop X
          (smoothAvg smooth_K_first (calculate_curvature ang (smoothVecs smooth_e0_first e0_raw)))
          error_limit max_iterations distance_first
          (trialApprox X
            (smoothAvg smooth_K_first (calculate_curvature ang (smoothVecs smooth_e0_first e0_raw)))
            distance_first)).2.1,
        smooth_e0_first, smooth_K_first)

/-- The run durations telescope: their sum is last vertex index minus first. -/
theorem idxDiffs_sum (l : List ℕ) :
    ∀ a : ℕ, (idxDiffs (a :: l)).sum = ((a :: l).getLastD 0 : ℤ) - (a : ℤ) := by
  induction l with
  | nil => intro a; simp [idxDiffs]
  | cons b t ih =>
      intro a
      have hstep : idxDiffs (a :: b :: t) = ((b : ℤ) - (a : ℤ)) :: idxDiffs (b :: t) := rfl
      rw [hstep, List.sum_cons, ih b, List.getLastD_cons, List.getLastD_cons,
        List.getLastD_cons]
      ring

/-- The last element of a chain ending in an appended singleton. -/
theorem getLastD_append_singleton (l : List ℕ) (x : ℕ) :
    ∀ d : ℕ, (l ++ [x]).getLastD d = x := by
  induction l with
  | nil => intro d; rfl
  | cons a t ih => intro d; rw [List.cons_append, List.getLastD_cons, ih]

/-- Claim C8 (modelled from the spec): the vertices of every approximation
are the trajectory positions at the accepted tumble indices bracketed by
the trajectory's first and last points, hence their count is the tumble
count plus the two bracketing endpoints; and the run durations sum to the
total trajectory length in timesteps (`X.length - 1`). -/
theorem get_approximate_invariants (X : List Vec3) (k : List ℚ) (distance : ℕ)
    (hX : 1 ≤ X.length) :
    (get_approximate X k distance).vertices
        = X.getD 0 default ::
            ((get_approximate X k distance).tumble_idxs.map fun i => X.getD i default)
            ++ [X.getD (X.length - 1) default]
    ∧ (get_approximate X k distance).vertices.length
        = (get_approximate X k distance).tumble_idxs.length + 2
    ∧ (get_approximate X k distance).run_durations.sum = (X.length : ℤ) - 1 := by
  refine ⟨?_, ?_, ?_⟩
  · simp [get_approximate]
  · simp [get_approximate]
  · show (idxDiffs (0 :: sortKeyed (fun i : ℕ => (i : ℚ))
        (greedyAccept distance [] (sortKeyed (fun i => -(k.getD i 0)) (localPeakIdxs k)))
      ++ [X.length - 1])).sum = (X.length : ℤ) - 1
    rw [List.cons_append, idxDiffs_sum, List.getLastD_cons, getLastD_append_singleton]
    have hcast : ((X.length - 1 : ℕ) : ℤ) = (X.length : ℤ) - 1 := by omega
    rw [hcast]
    ring

/-- The search loop always lands on some evaluated candidate: its result is
`trialApprox` at some distance whenever its incoming best is. -/
theorem searchLoop_trial (X : List Vec3) (k : List ℚ) (lim : ℚ) :
    ∀ (fuel d : ℕ) (best : Approximation × ℕ × ℚ),
      (∃ d0, best = trialApprox X k d0) →
      ∃ d1, searchLoop X k lim fuel d best = trialApprox X k d1 := by
  intro fuel
  induction fuel with
  | zero =>
      intro d best h
      simpa [searchLoop] using h
  | succ n ih =>
      intro d best h
      by_cases hc : (trialApprox X k d).2.2 ≤ lim
      · refine ⟨d, ?_⟩
        simp only [searchLoop]
        rw [if_pos hc]
      · have hnext : ∃ d0,
            (if (trialApprox X k d).2.2 < best.2.2 then trialApprox X k d else best)
              = trialApprox X k d0 := by
          by_cases hb : (trialApprox X k d).2.2 < best.2.2
          · exact ⟨d, by rw [if_pos hb]⟩
          · obtain ⟨d0, hd0⟩ := h
            exact ⟨d0, by rw [if_neg hb]; exact hd0⟩
        have := ih (max 1 (d / 2)) _ hnext
        simpa only [searchLoop, if_neg hc] using this

/-- The search loop never returns a candidate with a worse error than its
incoming best unless it converged within the error limit. -/
theorem searchLoop_min (X : List Vec3) (k : List ℚ) (lim : ℚ) :
    ∀ (fuel d : ℕ) (best : Approximation × ℕ × ℚ),
      (searchLoop X k lim fuel d best).2.2 ≤ best.2.2
        ∨ (searchLoop X k lim fuel d best).2.2 ≤ lim := by
  intro fuel
  induction fuel with
  | zero =>
      intro d best
      simp [searchLoop]
  | succ n ih =>
      intro d best
      by_cases hc : (trialApprox X k d).2.2 ≤ lim
      · right
        simp only [searchLoop]
        rw [if_pos hc]
        exact hc
      · have hrec := ih (max 1 (d / 2))
          (if (trialApprox X k d).2.2 < best.2.2 then trialApprox X k d else best)
        have hb2 : (if (trialApprox X k d).2.2 < best.2.2 then trialApprox X k d
            else best).2.2 ≤ best.2.2 := by
          by_cases hb : (trialApprox X k d).2.2 < best.2.2
          · rw [if_pos hb]; exact le_of_lt hb
          · rw [if_neg hb]
        simp only [searchLoop, if_neg hc]
        rcases hrec with hl | hr
        · exact Or.inl (le_trans hl hb2)
        · exact Or.inr hr

/-- Claim C9 (modelled from the spec): `find_approximation` never raises on
non-convergence — whenever the preconditions hold it returns `ok` with an
approximation that is `get_approximate` at the resolved distance, whose
error is no worse than the first-distance candidate unless it is already
within the error limit; and malformed inputs (mismatched `X`/`e0` lengths,
zero first distance, non-positive error limit) fail fast with a
`PreconditionError`. -/
theorem find_approximation_soft_failure (ang : Vec3 → Vec3 → ℚ) (X e0_raw : List Vec3)
    (error_limit : ℚ) (max_iterations distance_first smooth_e0_first smooth_K_first : ℕ) :
    ((X.length = e0_raw.length ∧ distance_first ≠ 0 ∧ 0 < error_limit) →
      ∃ a d,
        find_approximation ang X e0_raw error_limit max_iterations distance_first
            smooth_e0_first smooth_K_first
          = .ok (a, d, smooth_e0_first, smooth_K_first)
        ∧ a = get_approximate X (smoothAvg smooth_K_first
            (calculate_curvature ang (smoothVecs smooth_e0_first e0_raw))) d
        ∧ (mse X a.X_approx
            ≤ mse X (get_approximate X (smoothAvg smooth_K_first
                (calculate_curvature ang (smoothVecs smooth_e0_first e0_raw)))
                distance_first).X_approx
          ∨ mse X a.X_approx ≤ error_limit))
    ∧ (¬ (X.length = e0_raw.length ∧ distance_first ≠ 0 ∧ 0 < error_limit) →
        find_approximation ang X e0_raw error_limit max_iterations distance_first
          smooth_e0_first smooth_K_first = .error .mk) := by
  constructor
  · rintro ⟨h1, h2, h3⟩
    have hcond : ¬ (X.length ≠ e0_raw.length ∨ distance_first = 0 ∨ error_limit ≤ 0) := by
      push_neg
      exact ⟨h1, h2, h3⟩
    unfold find_approximation
    rw [if_neg hcond]
    obtain ⟨d1, hd1⟩ := searchLoop_trial X
      (smoothAvg smooth_K_first (calculate_curvature ang (smoothVecs smooth_e0_first e0_raw)))
      error_limit max_iterations distance_first
      (trialApprox X
        (smoothAvg smooth_K_first (calculate_curvature ang (smoothVecs smooth_e0_first e0_raw)))
        distance_first)
      ⟨distance_first, rfl⟩
    have hmin := searchLoop_min X
      (smoothAvg smooth_K_first (calculate_curvature ang (smoothVecs smooth_e0_first e0_raw)))
      error_limit max_iterations distance_first
      (trialApprox X
        (smoothAvg smooth_K_first (calculate_curvature ang (smoothVecs smooth_e0_first e0_raw)))
        distance_first)
    refine ⟨_, _, rfl, ?_, ?_⟩
    · rw [hd1]
      rfl
    · rw [hd1] at hmin ⊢
      exact hmin
  · intro h
    have hcond : X.length ≠ e0_raw.length ∨ distance_first = 0 ∨ error_limit ≤ 0 := by
      by_contra hno
      push_neg at hno
      exact h ⟨hno.1, hno.2.1, hno.2.2⟩
    unfold find_approximation
    rw [if_pos hcond]

/-- A concrete 4-point trajectory. -/
def trajW : List Vec3 := [![0, 0, 0], ![1, 0, 0], ![2, 1, 0], ![3, 0, 0]]

/-- A concrete curvature signal for `trajW` with one interior peak. -/
def curvW : List ℚ := [0, 5, 1, 0]

/-- Witness instantiating C8 at a concrete trajectory, curvature signal and
spacing, discharging the nonempty-trajectory hypothesis. -/
theorem get_approximate_invariants_witness :
    1 ≤ trajW.length ∧
    ((get_approximate trajW curvW 1).vertices
        = trajW.getD 0 default ::
            ((get_approximate trajW curvW 1).tumble_idxs.map fun i => trajW.getD i default)
            ++ [trajW.getD (trajW.length - 1) default]
      ∧ (get_approximate trajW curvW 1).vertices.length
        = (get_approximate trajW curvW 1).tumble_idxs.length + 2
      ∧ (get_approximate trajW curvW 1).run_durations.sum = (trajW.length : ℤ) - 1) :=
  ⟨by norm_num [trajW], get_approximate_invariants trajW curvW 1 (by norm_num [trajW])⟩

/-- A concrete (rational stand-in) angular-change measure between headings. -/
def angW : Vec3 → Vec3 → ℚ := fun u v =>
  (u 0 - v 0) ^ 2 + (u 1 - v 1) ^ 2 + (u 2 - v 2) ^ 2

/-- A concrete heading signal matching `trajW` in length. -/
def e0W : List Vec3 := [![1, 0, 0], ![1, 0, 0], ![1, 0, 0], ![1, 0, 0]]

/-- A heading signal whose length mismatches `trajW`. -/
def e0Bad : List Vec3 := [![1, 0, 0]]

/-- Witness instantiating C9 concretely: on well-formed inputs the search
returns `ok` (even with a zero iteration budget), and on a length mismatch
it returns the `PreconditionError`. -/
theorem find_approximation_soft_failure_witness :
    (∃ a d,
        find_approximation angW trajW e0W 1 0 1 1 1 = .ok (a, d, 1, 1)
        ∧ a = get_approximate trajW
            (smoothAvg 1 (calculate_curvature angW (smoothVecs 1 e0W))) d
        ∧ (mse trajW a.X_approx
            ≤ mse trajW (get_approximate trajW
                (smoothAvg 1 (calculate_curvature angW (smoothVecs 1 e0W))) 1).X_approx
          ∨ mse trajW a.X_approx ≤ 1))
    ∧ find_approximation angW trajW e0Bad 1 0 1 1 1 = .error .mk :=
  ⟨(find_approximation_soft_failure angW trajW e0W 1 0 1 1 1).1
      ⟨by norm_num [trajW, e0W], by norm_num, by norm_num⟩,
    (find_approximation_soft_failure angW trajW e0Bad 1 0 1 1 1).2
      fun hcontra => absurd hcontra.1 (by norm_num [trajW, e0Bad])⟩
